import Mathlib

/-!
Shallow embedding of the `oui` utility (`src/main.rs`), an OUI
(Organizationally Unique Identifier) lookup tool: it normalizes a MAC
address string to its 6-character OUI prefix and scans a
semicolon-delimited reference table for a matching vendor.

Modelling conventions:
* Rust `String`/`&str` become Lean `String` (a list of Unicode scalar
  values).  Rust's `str::len` counts UTF-8 bytes, so the length check is
  modelled with an explicit UTF-8 byte count (`byteLen`).
* Rust byte slicing `&s[..6]`, which panics when byte index 6 is past the
  end of the string or falls inside a multi-byte character, is modelled by
  `takeBytes`, returning `none` exactly in the panicking cases.  A panic is
  propagated as `none` through `parse_mac`, `run` and `main`.
* The `csv` crate reader is modelled at the record level: the file's parsed
  rows are given as a `List (List String)`.  The reader is built with the
  default configuration (`has_headers = true`, `flexible = false`), so the
  first row is consumed as a header and not yielded by `records()`, and a
  yielded record whose field count differs from the header's produces a
  read error (`UnequalLengths`).
* File opening and the environment are modelled as explicit inputs: `fs`
  maps a path to `some rows` (openable, parsed rows) or `none` (cannot be
  opened); `HOME` is an `Option String`.
* All `Box<dyn Error>` values are collapsed into the inductive `AppError`,
  one constructor per distinct failure site.
-/

namespace Oui

/-- Minimum length without separators (`MIN_MAC_LENGTH` in main.rs). -/
def MIN_MAC_LENGTH : Nat := 12

/-- Maximum length with separators (`MAX_MAC_LENGTH` in main.rs). -/
def MAX_MAC_LENGTH : Nat := 17

/-- OUI is first 6 hex digits (`OUI_LENGTH` in main.rs). -/
def OUI_LENGTH : Nat := 6

/-- The error values the program can produce, one constructor per failure
site in main.rs.  `invalidMac` is the "Invalid MAC Address." error
(the spec's `InvalidLength`), `usageError` is "OUI takes a single
argument.", `envError` is the `VarError` from a missing `HOME`,
`tableUnavailable` is a failed `csv::ReaderBuilder::from_path`, and
`parseError` is a record read error inside `rdr.records()`. -/
inductive AppError : Type
  | usageError
  | invalidMac
  | envError
  | tableUnavailable
  | parseError
deriving DecidableEq

/-- Decidable equality of modelled program results, for concrete
evaluation of counterexamples. -/
instance : DecidableEq (Except AppError String) := fun a b =>
  match a, b with
  | Except.ok x, Except.ok y =>
    if h : x = y then isTrue (by rw [h]) else isFalse (fun hc => by cases hc; exact h rfl)
  | Except.error x, Except.error y =>
    if h : x = y then isTrue (by rw [h]) else isFalse (fun hc => by cases hc; exact h rfl)
  | Except.ok _, Except.error _ => isFalse (fun hc => by cases hc)
  | Except.error _, Except.ok _ => isFalse (fun hc => by cases hc)

/-- The separator characters removed by `parse_mac`'s filter:
`['-', ':', '.', ' ']`. -/
def separators : List Char := ['-', ':', '.', ' ']

/-- UTF-8 byte count of a list of characters. -/
def byteListLen (l : List Char) : Nat := (l.map Char.utf8Size).sum

/-- UTF-8 byte count of a string; this is what Rust's `mac.len()`
computes on a `&str`. -/
def byteLen (s : String) : Nat := byteListLen s.data

/-- Rust's `char::to_ascii_uppercase`: map `'a'..='z'` to `'A'..='Z'`,
leave every other character (including non-ASCII) unchanged. -/
def toAsciiUpper (c : Char) : Char :=
  if 'a' ≤ c ∧ c ≤ 'z' then Char.ofNat (c.toNat - 32) else c

/-- The byte slice `&s[..n]` of Rust, on the character list of a string:
`some` of the characters occupying the first `n` bytes when byte index `n`
is a character boundary at or before the end of the string, `none` (a
panic) when `n` is past the end or falls inside a multi-byte character. -/
def takeBytes : Nat → List Char → Option (List Char)
  | 0, _ => some []
  | _ + 1, [] => none
  | n + 1, c :: cs =>
    if c.utf8Size ≤ n + 1 then
      match takeBytes (n + 1 - c.utf8Size) cs with
      | some t => some (c :: t)
      | none => none
    else none

/-- The separator-removal step of `parse_mac` (the `cleaned` binding):
`mac.chars().filter(|c| !['-', ':', '.', ' '].contains(c)).collect()`. -/
def cleanedChars (mac : String) : List Char :=
  mac.data.filter (fun c => !(separators.contains c))

/-- The normalization core of `parse_mac` after the length check
(lines 76–86 of main.rs): remove separators, ASCII-uppercase, and take the
first `OUI_LENGTH` bytes (`&uppered[..OUI_LENGTH]`).  `none` models the
panic of the byte slice. -/
def normCore (mac : String) : Option String :=
  match takeBytes OUI_LENGTH ((cleanedChars mac).map toAsciiUpper) with
  | some t => some (String.mk t)
  | none => none

/-- `parse_mac` of main.rs: reject strings whose UTF-8 byte length is
outside `[MIN_MAC_LENGTH, MAX_MAC_LENGTH]` with the "Invalid MAC Address."
error, then run the normalization core.  The outer `Option` is `none` when
the slice `&uppered[..OUI_LENGTH]` panics. -/
def parse_mac (mac : String) : Option (Except AppError String) :=
  if byteLen mac < MIN_MAC_LENGTH || byteLen mac > MAX_MAC_LENGTH then
    some (Except.error AppError.invalidMac)
  else
    match normCore mac with
    | some s => some (Except.ok s)
    | none => none

/-- `get_csv_path` of main.rs: `$HOME/.local/share/oui/IEEE_OUI.csv`, or a
`VarError` when `HOME` is unset. -/
def get_csv_path (home : Option String) : Except AppError String :=
  match home with
  | none => Except.error AppError.envError
  | some h => Except.ok (h ++ "/.local/share/oui/IEEE_OUI.csv")

/-- The record loop of `lookup_oui` (`for result in rdr.records()`), with
the `csv` crate's default non-flexible validation: a record whose field
count differs from `expected` (the header's field count) is a read error
propagated by `result?`; otherwise a record whose field 0 equals `mac` ends
the scan, printing field 1 (or "Unknown vendor." when absent).  The result
is the line printed to stdout, or the first error. -/
def scanRecords (expected : Nat) (mac : String) :
    List (List String) → Except AppError String
  | [] => Except.ok "No match."
  | r :: rs =>
    if r.length ≠ expected then Except.error AppError.parseError
    else if r.get? 0 = some mac then
      Except.ok ((r.get? 1).getD "Unknown vendor.")
    else scanRecords expected mac rs

/-- `lookup_oui` of main.rs over the modelled file content: `none` (the
file cannot be opened) is the `from_path` failure propagated by `?`;
otherwise the reader, built with the default `has_headers = true`, consumes
the first row as a header and iterates over the remaining rows. -/
def lookup_oui (file : Option (List (List String))) (mac : String) :
    Except AppError String :=
  match file with
  | none => Except.error AppError.tableUnavailable
  | some rows =>
    match rows with
    | [] => Except.ok "No match."
    | header :: records => scanRecords header.length mac records

/-- `run` of main.rs: `args` is the full argument vector including the
program name (`env::args()`), `home` the value of `HOME`, `fs` the mapping
from a path to the openable file's parsed rows.  Exactly two arguments are
required; then `parse_mac`, `get_csv_path` and `lookup_oui` are chained
with `?`.  The result is `none` on a panic inside `parse_mac`, otherwise
the stdout line or the first error. -/
def run (args : List String) (home : Option String)
    (fs : String → Option (List (List String))) :
    Option (Except AppError String) :=
  match args with
  | [_, raw] =>
    match parse_mac raw with
    | none => none
    | some (Except.error e) => some (Except.error e)
    | some (Except.ok mac) =>
      match get_csv_path home with
      | Except.error e => some (Except.error e)
      | Except.ok csv_path => some (lookup_oui (fs csv_path) mac)
  | _ => some (Except.error AppError.usageError)

/-- `main` of main.rs: on `Err(e)` print `Error: <e>` to stderr and exit 1,
otherwise exit 0.  The result is `none` on a panic, otherwise the pair of
the process exit code and the stderr line (`some e` standing for the line
`Error: <display of e>`). -/
def main (args : List String) (home : Option String)
    (fs : String → Option (List (List String))) :
    Option (Nat × Option AppError) :=
  match run args home fs with
  | none => none
  | some (Except.error e) => some (1, some e)
  | some (Except.ok _) => some (0, none)

end Oui

namespace Oui

/-! ### Helper lemmas about characters and `takeBytes` -/

/-- Order on `Char` transfers to `Char.toNat`. -/
theorem char_le_iff (a b : Char) : a ≤ b ↔ a.toNat ≤ b.toNat := by
  simp [Char.le_def, UInt32.le_def, BitVec.le_def]
  rfl

/-- On a lowercase ASCII letter, `toAsciiUpper` subtracts 32. -/
theorem toNat_toAsciiUpper_lower {c : Char} (h1 : 97 ≤ c.toNat) (h2 : c.toNat ≤ 122) :
    (toAsciiUpper c).toNat = c.toNat - 32 := by
  have ha : Char.toNat 'a' = 97 := rfl
  have hz : Char.toNat 'z' = 122 := rfl
  have hcond : 'a' ≤ c ∧ c ≤ 'z' := by
    refine ⟨(char_le_iff 'a' c).mpr ?_, (char_le_iff c 'z').mpr ?_⟩ <;> omega
  unfold toAsciiUpper
  rw [if_pos hcond]
  have hv : (c.toNat - 32).isValidChar := Or.inl (by omega)
  rw [Char.ofNat, dif_pos hv]
  rfl

/-- Off the lowercase ASCII range, `toAsciiUpper` is the identity. -/
theorem toAsciiUpper_eq_self {c : Char} (h : ¬(97 ≤ c.toNat ∧ c.toNat ≤ 122)) :
    toAsciiUpper c = c := by
  have ha : Char.toNat 'a' = 97 := rfl
  have hz : Char.toNat 'z' = 122 := rfl
  unfold toAsciiUpper
  rw [if_neg]
  intro hc
  exact h ⟨by have := (char_le_iff 'a' c).mp hc.1; omega,
           by have := (char_le_iff c 'z').mp hc.2; omega⟩

/-- `toAsciiUpper` is idempotent. -/
theorem toAsciiUpper_idem (c : Char) : toAsciiUpper (toAsciiUpper c) = toAsciiUpper c := by
  by_cases h : 97 ≤ c.toNat ∧ c.toNat ≤ 122
  · have hup := toNat_toAsciiUpper_lower h.1 h.2
    exact toAsciiUpper_eq_self (by omega)
  · rw [toAsciiUpper_eq_self h, toAsciiUpper_eq_self h]

/-- The code points of the four separator characters. -/
theorem mem_separators_toNat {c : Char} (h : c ∈ separators) :
    c.toNat = 45 ∨ c.toNat = 58 ∨ c.toNat = 46 ∨ c.toNat = 32 := by
  simp [separators] at h
  rcases h with rfl | rfl | rfl | rfl <;> decide

/-- `toAsciiUpper` maps non-separators to non-separators. -/
theorem toAsciiUpper_notin_separators {c : Char} (h : c ∉ separators) :
    toAsciiUpper c ∉ separators := by
  by_cases hl : 97 ≤ c.toNat ∧ c.toNat ≤ 122
  · intro hmem
    have hm := mem_separators_toNat hmem
    rw [toNat_toAsciiUpper_lower hl.1 hl.2] at hm
    omega
  · rw [toAsciiUpper_eq_self hl]
    exact h

/-- A character below code point 128 occupies one UTF-8 byte. -/
theorem utf8Size_eq_one {c : Char} (h : c.toNat < 128) : c.utf8Size = 1 := by
  unfold Char.utf8Size
  rw [if_pos]
  show c.val ≤ 0x7F
  simp [UInt32.le_def, BitVec.le_def]
  show c.val.toNat ≤ 127
  exact Nat.le_of_lt_succ h

/-- `toAsciiUpper` preserves the UTF-8 width of a character. -/
theorem utf8Size_toAsciiUpper (c : Char) : (toAsciiUpper c).utf8Size = c.utf8Size := by
  by_cases h : 97 ≤ c.toNat ∧ c.toNat ≤ 122
  · rw [utf8Size_eq_one (show (toAsciiUpper c).toNat < 128 by
        rw [toNat_toAsciiUpper_lower h.1 h.2]; omega),
      utf8Size_eq_one (show c.toNat < 128 by omega)]
  · rw [toAsciiUpper_eq_self h]

/-- A successful `takeBytes` returns a prefix of its input. -/
theorem takeBytes_eq_append {l : List Char} :
    ∀ {n : Nat} {t : List Char}, takeBytes n l = some t → ∃ r, l = t ++ r := by
  induction l with
  | nil =>
    intro n t h
    cases n with
    | zero =>
      simp only [takeBytes, Option.some.injEq] at h
      exact ⟨[], by simp [← h]⟩
    | succ m => simp [takeBytes] at h
  | cons c cs ih =>
    intro n t h
    cases n with
    | zero =>
      simp only [takeBytes, Option.some.injEq] at h
      exact ⟨c :: cs, by simp [← h]⟩
    | succ m =>
      simp only [takeBytes] at h
      split at h
      · cases hrec : takeBytes (m + 1 - c.utf8Size) cs with
        | none => rw [hrec] at h; simp at h
        | some t2 =>
          rw [hrec] at h
          simp only [Option.some.injEq] at h
          obtain ⟨r, hr⟩ := ih hrec
          exact ⟨r, by rw [← h, hr]; rfl⟩
      · simp at h

/-- A successful `takeBytes n` returns characters occupying exactly `n`
bytes. -/
theorem byteListLen_takeBytes {l : List Char} :
    ∀ {n : Nat} {t : List Char}, takeBytes n l = some t → byteListLen t = n := by
  induction l with
  | nil =>
    intro n t h
    cases n with
    | zero =>
      simp only [takeBytes, Option.some.injEq] at h
      simp [← h, byteListLen]
    | succ m => simp [takeBytes] at h
  | cons c cs ih =>
    intro n t h
    cases n with
    | zero =>
      simp only [takeBytes, Option.some.injEq] at h
      simp [← h, byteListLen]
    | succ m =>
      simp only [takeBytes] at h
      split at h
      · rename_i hle
        cases hrec : takeBytes (m + 1 - c.utf8Size) cs with
        | none => rw [hrec] at h; simp at h
        | some t2 =>
          rw [hrec] at h
          simp only [Option.some.injEq] at h
          have hrec2 := ih hrec
          rw [← h]
          simp only [byteListLen, List.map_cons, List.sum_cons] at hrec2 ⊢
          omega
      · simp at h

/-- `takeBytes` at the exact byte length of a list returns the whole
list. -/
theorem takeBytes_byteListLen :
    ∀ (l : List Char) {n : Nat}, n = byteListLen l → takeBytes n l = some l := by
  intro l
  induction l with
  | nil =>
    intro n h
    rw [h]
    rfl
  | cons c cs ih =>
    intro n h
    have hpos := Char.utf8Size_pos c
    have hlen : byteListLen (c :: cs) = c.utf8Size + byteListLen cs := by
      simp [byteListLen]
    cases n with
    | zero => rw [hlen] at h; omega
    | succ m =>
      rw [hlen] at h
      simp only [takeBytes]
      rw [if_pos (by omega)]
      have harg : m + 1 - c.utf8Size = byteListLen cs := by omega
      rw [harg, ih rfl]

/-- On single-byte characters, `takeBytes n` is `List.take n` when the
list is long enough. -/
theorem takeBytes_of_ascii :
    ∀ (n : Nat) (l : List Char), (∀ c ∈ l, c.utf8Size = 1) → n ≤ l.length →
      takeBytes n l = some (l.take n) := by
  intro n
  induction n with
  | zero =>
    intro l _ _
    cases l <;> rfl
  | succ m ih =>
    intro l hall hlen
    cases l with
    | nil => simp at hlen
    | cons c cs =>
      have hc : c.utf8Size = 1 := hall c (by simp)
      simp only [takeBytes]
      rw [if_pos (by omega)]
      have harg : m + 1 - c.utf8Size = m := by omega
      rw [harg, ih cs (fun a ha => hall a (by simp [ha])) (by simpa using hlen)]
      rfl

/-- Mapping a function that fixes every element of a list is the
identity. -/
theorem map_eq_self_of {l : List Char} {f : Char → Char} (h : ∀ a ∈ l, f a = a) :
    l.map f = l := by
  induction l with
  | nil => rfl
  | cons c cs ih =>
    simp only [List.map_cons]
    rw [h c (by simp), ih (fun a ha => h a (by simp [ha]))]

/-- The filter predicate of `cleanedChars` holds exactly on
non-separators. -/
theorem filterpred_iff {c : Char} : (!(separators.contains c)) = true ↔ c ∉ separators := by
  simp

/-- A successful `parse_mac` is a successful `normCore`. -/
theorem parse_mac_ok_normCore {mac oui : String}
    (h : parse_mac mac = some (Except.ok oui)) : normCore mac = some oui := by
  unfold parse_mac at h
  split at h
  · simp at h
  · split at h
    · rename_i s hs
      simp only [Option.some.injEq, Except.ok.injEq] at h
      rw [hs, h]
    · simp at h

/-- Every character of a `normCore` output is a non-separator fixed by
`toAsciiUpper`. -/
theorem normCore_chars {mac oui : String} (h : normCore mac = some oui) :
    ∀ a ∈ oui.data, toAsciiUpper a = a ∧ a ∉ separators := by
  unfold normCore at h
  split at h
  · rename_i t ht
    simp only [Option.some.injEq] at h
    obtain ⟨r, hr⟩ := takeBytes_eq_append ht
    intro a ha
    have hadata : a ∈ t := by rw [← h] at ha; exact ha
    have hmem : a ∈ (cleanedChars mac).map toAsciiUpper := by
      rw [hr]
      exact List.mem_append_left r hadata
    obtain ⟨c₀, hc₀, hca⟩ := List.mem_map.mp hmem
    have hc₀sep : c₀ ∉ separators := by
      have := (List.mem_filter.mp hc₀).2
      exact filterpred_iff.mp this
    constructor
    · rw [← hca]
      exact toAsciiUpper_idem c₀
    · rw [← hca]
      exact toAsciiUpper_notin_separators hc₀sep
  · simp at h

/-- The byte length of a `normCore` output is exactly `OUI_LENGTH`. -/
theorem normCore_byteLen {mac oui : String} (h : normCore mac = some oui) :
    byteLen oui = OUI_LENGTH := by
  unfold normCore at h
  split at h
  · rename_i t ht
    simp only [Option.some.injEq] at h
    have := byteListLen_takeBytes ht
    rw [← h]
    exact this
  · simp at h

/-- C1.  The spec's idempotence claim as literally stated fails (re-running
`parse_mac` on the 6-byte OUI trips the minimum-length check), but the
normalization core — separator removal, ASCII-uppercasing and the
`&uppered[..OUI_LENGTH]` slice, i.e. lines 76–86 of `parse_mac` without
the length gate — is idempotent on every OUI that `parse_mac` produces:
`normCore oui = some oui`, while the full `parse_mac` rejects the OUI with
the "Invalid MAC Address." error because its byte length is 6 < 12. -/
theorem c1_normalization_idempotent_on_core {mac oui : String}
    (h : parse_mac mac = some (Except.ok oui)) :
    normCore oui = some oui ∧ parse_mac oui = some (Except.error AppError.invalidMac) := by
  have hn := parse_mac_ok_normCore h
  have hchars := normCore_chars hn
  have hblen := normCore_byteLen hn
  have hclean : cleanedChars oui = oui.data := by
    unfold cleanedChars
    exact List.filter_eq_self.mpr (fun a ha => filterpred_iff.mpr (hchars a ha).2)
  have hmap : oui.data.map toAsciiUpper = oui.data :=
    map_eq_self_of (fun a ha => (hchars a ha).1)
  have hcore : normCore oui = some oui := by
    unfold normCore
    rw [hclean, hmap, takeBytes_byteListLen oui.data (by rw [← hblen]; rfl)]
  refine ⟨hcore, ?_⟩
  have hcond : (byteLen oui < MIN_MAC_LENGTH || byteLen oui > MAX_MAC_LENGTH) = true := by
    rw [hblen]
    decide
  unfold parse_mac
  rw [if_pos hcond]

/-- Scanning past well-formed, non-matching records reaches the rest of
the list unchanged. -/
theorem scanRecords_skip {expected : Nat} {oui : String} :
    ∀ (pre : List (List String)),
      (∀ x ∈ pre, x.length = expected ∧ x.get? 0 ≠ some oui) →
      ∀ rest, scanRecords expected oui (pre ++ rest) = scanRecords expected oui rest := by
  intro pre
  induction pre with
  | nil => intro _ rest; rfl
  | cons x xs ih =>
    intro h rest
    have hx := h x (by simp)
    simp only [List.cons_append, scanRecords]
    rw [if_neg (by simp [hx.1]), if_neg hx.2]
    exact ih (fun a ha => h a (by simp [ha])) rest

/-- A well-formed record matching the searched OUI at the head of the scan
ends the scan with its second field (or the "Unknown vendor." default). -/
theorem scanRecords_found {expected : Nat} {oui : String} {r : List String}
    {rest : List (List String)}
    (hrlen : r.length = expected) (hr : r.get? 0 = some oui) :
    scanRecords expected oui (r :: rest) = Except.ok ((r.get? 1).getD "Unknown vendor.") := by
  simp only [scanRecords]
  rw [if_neg (by simp [hrlen]), if_pos hr]

/-! ### Claim theorems -/

/-- C1 (counterexample to the claim as stated): `parse_mac` maps
"AA:BB:CC:DD:EE:FF" to the OUI "AABBCC", but applying `parse_mac` to that
OUI does not return the OUI again — it fails the minimum-length check with
the "Invalid MAC Address." error, because the OUI is only 6 bytes long. -/
theorem c1_counterexample :
    parse_mac "AA:BB:CC:DD:EE:FF" = some (Except.ok "AABBCC") ∧
    parse_mac "AABBCC" = some (Except.error AppError.invalidMac) ∧
    parse_mac "AABBCC" ≠ some (Except.ok "AABBCC") :=
  ⟨rfl, rfl, by decide⟩

/-- C1 (witness): the amended idempotence theorem applied at the concrete
raw MAC "AA:BB:CC:DD:EE:FF". -/
theorem c1_witness :
    normCore "AABBCC" = some "AABBCC" ∧
    parse_mac "AABBCC" = some (Except.error AppError.invalidMac) :=
  @c1_normalization_idempotent_on_core "AA:BB:CC:DD:EE:FF" "AABBCC" rfl

/-- C2 (amended): the reader is built with the `csv` crate's default
`has_headers = true`, so the first row of the table is consumed as a
header and excluded from the scan; lookup returns the vendor of the first
record after the header row whose column 0 equals the OUI. -/
theorem c2_lookup_first_match_after_header {header r : List String}
    {pre post : List (List String)} {oui : String}
    (hpre : ∀ x ∈ pre, x.length = header.length ∧ x.get? 0 ≠ some oui)
    (hrlen : r.length = header.length) (hr : r.get? 0 = some oui) :
    lookup_oui (some (header :: (pre ++ r :: post))) oui =
      Except.ok ((r.get? 1).getD "Unknown vendor.") := by
  show scanRecords header.length oui (pre ++ r :: post) = _
  rw [scanRecords_skip pre hpre (r :: post), scanRecords_found hrlen hr]

/-- C2 (counterexample to the claim as stated): against a table whose
single line is `AABBCC;Acme Corp`, lookup of "AABBCC" yields "No match.",
not "Acme Corp" — the only row is consumed as the header. -/
theorem c2_counterexample :
    lookup_oui (some [["AABBCC", "Acme Corp"]]) "AABBCC" = Except.ok "No match." ∧
    lookup_oui (some [["AABBCC", "Acme Corp"]]) "AABBCC" ≠ Except.ok "Acme Corp" :=
  ⟨rfl, by decide⟩

/-- C2 (witness): with a header line present, the record `AABBCC;Acme Corp`
is found and its vendor returned. -/
theorem c2_witness :
    lookup_oui (some [["OUI", "Vendor"], ["AABBCC", "Acme Corp"]]) "AABBCC" =
      Except.ok "Acme Corp" :=
  @c2_lookup_first_match_after_header ["OUI", "Vendor"] ["AABBCC", "Acme Corp"]
    [] [] "AABBCC" (by simp) (by decide) (by decide)

/-- C3 (amended): `parse_mac` fails with the "Invalid MAC Address." error
(the spec's `InvalidLength`) exactly when the UTF-8 byte count of the raw
string — what Rust's `str::len` measures, equal to the character count for
ASCII input — is outside `[MIN_MAC_LENGTH, MAX_MAC_LENGTH]` = [12, 17]. -/
theorem c3_invalid_length_iff_byte_count (mac : String) :
    parse_mac mac = some (Except.error AppError.invalidMac) ↔
      (byteLen mac < MIN_MAC_LENGTH ∨ byteLen mac > MAX_MAC_LENGTH) := by
  constructor
  · intro h
    unfold parse_mac at h
    split at h
    · rename_i hcond
      simpa using hcond
    · split at h <;> simp at h
  · intro h
    unfold parse_mac
    rw [if_pos (by simpa using h)]

/-- C3 (counterexample to the claim as stated): a raw string of twelve
two-byte characters has character count 12, inside [12, 17], yet
`parse_mac` fails with the "Invalid MAC Address." error, because the
length check counts UTF-8 bytes (24 here), not characters. -/
theorem c3_counterexample :
    ("éééééééééééé" : String).length = 12 ∧
    byteLen "éééééééééééé" = 24 ∧
    parse_mac "éééééééééééé" = some (Except.error AppError.invalidMac) :=
  ⟨rfl, rfl, rfl⟩

/-- C3 (witness): the amended equivalence applied at an 11-character and an
18-character ASCII string, both rejected. -/
theorem c3_witness :
    parse_mac "AABBCCDDEEF" = some (Except.error AppError.invalidMac) ∧
    parse_mac "AABBCCDDEEFF001122" = some (Except.error AppError.invalidMac) :=
  ⟨(c3_invalid_length_iff_byte_count "AABBCCDDEEF").mpr (by decide),
   (c3_invalid_length_iff_byte_count "AABBCCDDEEFF001122").mpr (by decide)⟩

/-- C4.  `parse_mac` maps "AA:BB:CC:DD:EE:FF" and "aa-bb-cc-dd-ee-ff" to
"AABBCC", and an input mixing all four separators at arbitrary positions is
cleaned, uppercased, and truncated to the first 6 characters the same
way. -/
theorem c4_normalize_examples :
    parse_mac "AA:BB:CC:DD:EE:FF" = some (Except.ok "AABBCC") ∧
    parse_mac "aa-bb-cc-dd-ee-ff" = some (Except.ok "AABBCC") ∧
    parse_mac "aabb.cc dd-ee:ff" = some (Except.ok "AABBCC") :=
  ⟨rfl, rfl, rfl⟩

/-- C5 (amended): among the records after the header row, the earliest one
whose column 0 equals the OUI wins, even when a later record also matches,
and the rows after the first match are never examined — the result does
not depend on them. -/
theorem c5_first_match_wins {header r : List String}
    {pre post : List (List String)} {oui : String}
    (hpre : ∀ x ∈ pre, x.length = header.length ∧ x.get? 0 ≠ some oui)
    (hrlen : r.length = header.length) (hr : r.get? 0 = some oui)
    (_hdup : ∃ x ∈ post, x.get? 0 = some oui) :
    lookup_oui (some (header :: (pre ++ r :: post))) oui =
      Except.ok ((r.get? 1).getD "Unknown vendor.") ∧
    ∀ post2, lookup_oui (some (header :: (pre ++ r :: post))) oui =
      lookup_oui (some (header :: (pre ++ r :: post2))) oui := by
  have hbase : ∀ q, lookup_oui (some (header :: (pre ++ r :: q))) oui =
      Except.ok ((r.get? 1).getD "Unknown vendor.") := by
    intro q
    show scanRecords header.length oui (pre ++ r :: q) = _
    rw [scanRecords_skip pre hpre (r :: q), scanRecords_found hrlen hr]
  exact ⟨hbase post, fun post2 => (hbase post).trans (hbase post2).symm⟩

/-- C5 (counterexample to the claim as stated): in a table whose rows 0 and
1 both carry the searched OUI, lookup returns the vendor of row 1, not of
the earliest row in file order — row 0 was consumed as the header. -/
theorem c5_counterexample :
    lookup_oui (some [["AABBCC", "V1"], ["AABBCC", "V2"]]) "AABBCC" = Except.ok "V2" ∧
    lookup_oui (some [["AABBCC", "V1"], ["AABBCC", "V2"]]) "AABBCC" ≠ Except.ok "V1" :=
  ⟨rfl, by decide⟩

/-- C5 (witness): the amended first-match theorem applied to a table with a
header row and two matching records. -/
theorem c5_witness :
    lookup_oui (some [["OUI", "Vendor"], ["AABBCC", "V1"], ["AABBCC", "V2"]]) "AABBCC" =
      Except.ok "V1" :=
  (@c5_first_match_wins ["OUI", "Vendor"] ["AABBCC", "V1"] [] [["AABBCC", "V2"]]
    "AABBCC" (by simp) (by decide) (by decide) ⟨["AABBCC", "V2"], by simp⟩).1

/-- C6.  Against a readable, well-formed table (every row has the two
columns of the format) in which no row's column 0 equals the searched OUI,
lookup succeeds with the "No match." line, and a full invocation through
`main` exits with code 0 and prints nothing to stderr. -/
theorem c6_no_match_is_success {rows : List (List String)} {prog raw home oui : String}
    {fs : String → Option (List (List String))}
    (hwf : ∀ x ∈ rows, x.length = 2)
    (hnm : ∀ x ∈ rows, x.get? 0 ≠ some oui)
    (hparse : parse_mac raw = some (Except.ok oui))
    (hfs : fs (home ++ "/.local/share/oui/IEEE_OUI.csv") = some rows) :
    lookup_oui (some rows) oui = Except.ok "No match." ∧
    main [prog, raw] (some home) fs = some (0, none) := by
  have hlook : lookup_oui (some rows) oui = Except.ok "No match." := by
    cases rows with
    | nil => rfl
    | cons header records =>
      show scanRecords header.length oui records = _
      have hall : ∀ x ∈ records, x.length = header.length ∧ x.get? 0 ≠ some oui := by
        intro x hx
        have hh : header.length = 2 := hwf header (by simp)
        exact ⟨by rw [hwf x (by simp [hx]), hh], hnm x (by simp [hx])⟩
      have := scanRecords_skip records hall []
      rw [List.append_nil] at this
      rw [this]
      rfl
  refine ⟨hlook, ?_⟩
  have hrun : run [prog, raw] (some home) fs = some (Except.ok "No match.") := by
    simp [run, hparse, get_csv_path, hfs, hlook]
  simp [main, hrun]

/-- C6 (witness): a full invocation against a table with no matching
record exits 0 with the "No match." outcome. -/
theorem c6_witness :
    lookup_oui (some [["DDEEFF", "Other Corp"]]) "AABBCC" = Except.ok "No match." ∧
    main ["oui", "AA:BB:CC:DD:EE:FF"] (some "/home/user")
      (fun _ => some [["DDEEFF", "Other Corp"]]) = some (0, none) :=
  @c6_no_match_is_success [["DDEEFF", "Other Corp"]] "oui" "AA:BB:CC:DD:EE:FF"
    "/home/user" "AABBCC" (fun _ => some [["DDEEFF", "Other Corp"]])
    (by decide) (by decide) rfl rfl

/-- C7.  When the table file cannot be opened (the modelled filesystem
yields nothing for the resolved path), lookup fails with the
`TableUnavailable` error instead of producing a vendor or the "No match."
outcome, and `main` prints the `Error: <message>` stderr line for that
error and exits with the non-zero code 1. -/
theorem c7_table_unavailable {prog raw home oui : String}
    {fs : String → Option (List (List String))}
    (hparse : parse_mac raw = some (Except.ok oui))
    (hfs : fs (home ++ "/.local/share/oui/IEEE_OUI.csv") = none) :
    lookup_oui none oui = Except.error AppError.tableUnavailable ∧
    run [prog, raw] (some home) fs = some (Except.error AppError.tableUnavailable) ∧
    main [prog, raw] (some home) fs = some (1, some AppError.tableUnavailable) := by
  have hrun : run [prog, raw] (some home) fs =
      some (Except.error AppError.tableUnavailable) := by
    simp [run, hparse, get_csv_path, hfs, lookup_oui]
  exact ⟨rfl, hrun, by simp [main, hrun]⟩

/-- C7 (witness): a lookup against an unopenable table path fails with
`TableUnavailable` and the process exits 1. -/
theorem c7_witness :
    run ["oui", "AA:BB:CC:DD:EE:FF"] (some "/home/user") (fun _ => none) =
      some (Except.error AppError.tableUnavailable) ∧
    main ["oui", "AA:BB:CC:DD:EE:FF"] (some "/home/user") (fun _ => none) =
      some (1, some AppError.tableUnavailable) :=
  ⟨(@c7_table_unavailable "oui" "AA:BB:CC:DD:EE:FF" "/home/user" "AABBCC"
      (fun _ => none) rfl rfl).2.1,
   (@c7_table_unavailable "oui" "AA:BB:CC:DD:EE:FF" "/home/user" "AABBCC"
      (fun _ => none) rfl rfl).2.2⟩

/-- C8.  Whenever the argument vector (program name included) does not
have exactly two entries — zero positional arguments, or two or more —
`run` fails with the `UsageError` before normalization or lookup can run
(the result does not depend on the environment or the filesystem), and
`main` prints its stderr line and exits with the non-zero code 1. -/
theorem c8_usage_error {args : List String} (h : args.length ≠ 2) :
    ∀ (home : Option String) (fs : String → Option (List (List String))),
      run args home fs = some (Except.error AppError.usageError) ∧
      main args home fs = some (1, some AppError.usageError) := by
  intro home fs
  have hrun : run args home fs = some (Except.error AppError.usageError) := by
    match args with
    | [] => rfl
    | [_] => rfl
    | [_, _] => simp at h
    | _ :: _ :: _ :: _ => rfl
  exact ⟨hrun, by simp [main, hrun]⟩

/-- C8 (witness): invocations with zero and with two positional arguments
both fail with `UsageError` and exit 1, for an arbitrary environment. -/
theorem c8_witness :
    run ["oui"] none (fun _ => none) = some (Except.error AppError.usageError) ∧
    main ["oui", "AA:BB:CC:DD:EE:FF", "extra"] (some "/home/user")
      (fun _ => some [["AABBCC", "Acme Corp"]]) = some (1, some AppError.usageError) :=
  ⟨(c8_usage_error (by decide) none (fun _ => none)).1,
   (c8_usage_error (by decide) (some "/home/user")
      (fun _ => some [["AABBCC", "Acme Corp"]])).2⟩

/-- C9 (amended): `parse_mac` performs no hexadecimal validation.  For
every input of valid byte length whose cleaned (separator-free) form
consists of single-byte (ASCII) characters and has at least `OUI_LENGTH`
of them, the first 6 cleaned, uppercased characters are returned as the
search key — whatever they are; for non-ASCII characters the slice counts
bytes rather than characters, so the character-level phrasing of the claim
holds only on the single-byte case. -/
theorem c9_no_hex_validation {mac : String}
    (hmin : MIN_MAC_LENGTH ≤ byteLen mac) (hmax : byteLen mac ≤ MAX_MAC_LENGTH)
    (hascii : ∀ c ∈ cleanedChars mac, c.utf8Size = 1)
    (hlen : OUI_LENGTH ≤ (cleanedChars mac).length) :
    parse_mac mac =
      some (Except.ok (String.mk (((cleanedChars mac).map toAsciiUpper).take OUI_LENGTH))) := by
  unfold parse_mac
  rw [if_neg (by simp [MIN_MAC_LENGTH, MAX_MAC_LENGTH] at hmin hmax ⊢; omega)]
  unfold normCore
  rw [takeBytes_of_ascii OUI_LENGTH ((cleanedChars mac).map toAsciiUpper)
    (by
      intro c hc
      obtain ⟨c₀, hc₀, hcc⟩ := List.mem_map.mp hc
      rw [← hcc, utf8Size_toAsciiUpper]
      exact hascii c₀ hc₀)
    (by simpa using hlen)]

/-- C9 (counterexample to the claim as stated): the input "éééééé" has
valid byte length 12 and a cleaned form of 6 characters, yet `parse_mac`
returns "ééé" — the first 6 bytes, which are only 3 characters — rather
than the first 6 cleaned characters. -/
theorem c9_counterexample :
    byteLen "éééééé" = 12 ∧
    (cleanedChars "éééééé").length = 6 ∧
    parse_mac "éééééé" = some (Except.ok "ééé") ∧
    parse_mac "éééééé" ≠ some (Except.ok "éééééé") :=
  ⟨rfl, rfl, rfl, by decide⟩

/-- C9 (witness): an input of twelve 'Z's — not hexadecimal digits — is
accepted and its first six characters become the search key. -/
theorem c9_witness : parse_mac "ZZZZZZZZZZZZ" = some (Except.ok "ZZZZZZ") :=
  @c9_no_hex_validation "ZZZZZZZZZZZZ" (by decide) (by decide) (by decide) (by decide)

/-- C10.  `parse_mac` is not total on inputs passing the length check: on
the 12-character input consisting only of ':' separators, the cleaned
string is empty and the slice `&uppered[..OUI_LENGTH]` indexes past its
end — the model's `none`, a Rust panic — instead of returning an OUI or an
error value. -/
theorem c10_parse_mac_panics :
    byteLen "::::::::::::" = 12 ∧
    cleanedChars "::::::::::::" = [] ∧
    parse_mac "::::::::::::" = none :=
  ⟨rfl, rfl, rfl⟩

end Oui
